import Mathlib

/-!
Verification of the abstract phase-retrieval optimizer base class
(`src/phre/optimizer/optimizer.py`).  Numeric arrays are modelled as
lists of rationals; each method of the `Optimizer` class is translated
into a pure Lean function over an explicit `Optimizer` state record.
A small heap model (`Store`) is used where claims concern in-place
mutation and aliasing of numpy arrays.
-/

namespace Phre

/-- Model of `np.sign` on a single rational entry. -/
def sign (x : ℚ) : ℚ := if 0 < x then 1 else if x < 0 then -1 else 0

/-- A fit-history entry: either the not-a-number sentinel `np.nan`
or an actual recorded value. -/
inductive HEntry where
  | nan : HEntry
  | val : ℚ → HEntry
deriving DecidableEq, Repr

/-- State of an `Optimizer` instance: the fields assigned in `__init__`. -/
structure Optimizer where
  obs_mat : List (List ℚ)
  obs : List ℚ
  obj_type : String
  num_obs : ℕ
  image_size : ℕ
  obj_his : List HEntry
  err_his : List HEntry
deriving DecidableEq, Repr

/-- `Optimizer.__init__`: stores the arguments verbatim, derives
`num_obs = obs_mat.shape[0]` and `image_size = obs_mat.shape[1]`, and
initializes both histories to empty lists.  The source performs no
shape validation whatsoever. -/
def mkOptimizer (obs_mat : List (List ℚ)) (obs : List ℚ)
    (obj_type : String) : Optimizer :=
  { obs_mat := obs_mat
    obs := obs
    obj_type := obj_type
    num_obs := obs_mat.length
    image_size := (obs_mat.headD []).length
    obj_his := []
    err_his := [] }

/-- One coordinate of `_soft_prox` after `v` has been replaced by
`v * sign(v)`: start from the observation `o`, overwrite with
`v2 - alpha` on the mask `v2 > o + alpha`, then overwrite with
`v2 + alpha` on the mask `v2 < o - alpha` (the second mask assignment
comes later in the source, so it wins if both masks hold). -/
def softProxStep (alpha o v2 : ℚ) : ℚ :=
  let w1 := if v2 > o + alpha then v2 - alpha else o
  if v2 < o - alpha then v2 + alpha else w1

/-- One coordinate of `Optimizer._soft_prox`: `sign_v = np.sign(v)`,
`v *= sign_v`, `w = obs.copy()`, the two mask assignments, and the
final `w *= sign_v`. -/
def softProxElem (alpha o v : ℚ) : ℚ :=
  let s := sign v
  let v2 := v * s
  softProxStep alpha o v2 * s

/-- `Optimizer._soft_prox` as a function of the state and the
reference vector (element-wise over `obs` and `v`). -/
def softProx (t : Optimizer) (v : List ℚ) (alpha : ℚ) : List ℚ :=
  List.zipWith (softProxElem alpha) t.obs v

/-- `Optimizer._hard_prox`: `w = obs.copy(); w *= np.sign(v)`. -/
def hardProx (t : Optimizer) (v : List ℚ) : List ℚ :=
  List.zipWith (fun o vi => o * sign vi) t.obs v

/-- Inner product of a matrix row with the candidate vector. -/
def dot (row x : List ℚ) : ℚ := (List.zipWith (· * ·) row x).sum

/-- `Optimizer.objective`:
`np.sum(np.abs(np.abs(self.obs_mat.dot(x)) - self.obs))`. -/
def objective (t : Optimizer) (x : List ℚ) : ℚ :=
  (List.zipWith (fun yi oi => |(|yi| - oi)|)
    (t.obs_mat.map (fun row => dot row x)) t.obs).sum

/-- `Optimizer.objective` as a state transformer: the method body is a
single return expression assigning no field, so the state is returned
unchanged. -/
def objectiveM (t : Optimizer) (x : List ℚ) : ℚ × Optimizer :=
  (objective t x, t)

/-- `Optimizer.reset_solver_info`: both histories become fresh empty
lists. -/
def reset_solver_info (t : Optimizer) : Optimizer :=
  { t with obj_his := [], err_his := [] }

/-- Conversion of an optional argument of `record_solver_info`:
`None` becomes the `np.nan` sentinel, anything else is kept as is. -/
def toEntry : Option ℚ → HEntry
  | none => HEntry.nan
  | some q => HEntry.val q

/-- `Optimizer.record_solver_info`: appends one entry to `obj_his`
and one entry to `err_his`, substituting `np.nan` for an omitted
argument. -/
def record_solver_info (t : Optimizer) (obj err : Option ℚ) : Optimizer :=
  { t with
    obj_his := t.obj_his ++ [toEntry obj]
    err_his := t.err_his ++ [toEntry err] }

/-- A sequence of `record_solver_info` calls with the given argument
pairs, performed left to right. -/
def recordMany (t : Optimizer) (args : List (Option ℚ × Option ℚ)) :
    Optimizer :=
  args.foldl (fun s p => record_solver_info s p.1 p.2) t

/-! ### Heap model for aliasing and in-place mutation

Numpy arrays are mutable buffers; `v *= sign_v` and the mask
assignments write through a reference, while `.copy()` allocates a
fresh buffer.  The `Store` maps references (natural numbers) to
buffer contents. -/

/-- A heap of array buffers. -/
abbrev Store := List (List ℚ)

/-- Read the buffer behind a reference. -/
def Store.read (st : Store) (r : ℕ) : List ℚ := st.getD r []

/-- Overwrite the buffer behind a reference (in-place array update). -/
def Store.write (st : Store) (r : ℕ) (v : List ℚ) : Store := st.set r v

/-- Allocate a fresh buffer (what `.copy()` does), returning its
reference and the extended heap. -/
def Store.alloc (st : Store) (v : List ℚ) : ℕ × Store :=
  (st.length, st ++ [v])

/-- `Optimizer._soft_prox` over the heap: `obsRef` is the buffer held
in `self.obs`, `vRef` the caller's argument buffer.  Line by line:
`sign_v = np.sign(v)`; `v *= sign_v` (in-place write through `vRef`);
`w = self.obs.copy()` (fresh allocation); the two mask assignments
write through `w`; `w *= sign_v` writes through `w`; return `w`. -/
def softProxH (st : Store) (obsRef vRef : ℕ) (alpha : ℚ) : ℕ × Store :=
  let v := st.read vRef
  let sign_v := v.map sign
  let v2 := List.zipWith (· * ·) v sign_v
  let st1 := st.write vRef v2
  let obsv := st1.read obsRef
  let aw := st1.alloc obsv
  let wRef := aw.1
  let st2 := aw.2
  let vcur := st2.read vRef
  let w1 := List.zipWith (softProxStep alpha) obsv vcur
  let st3 := st2.write wRef w1
  let w2 := List.zipWith (· * ·) (st3.read wRef) sign_v
  let st4 := st3.write wRef w2
  (wRef, st4)

/-- `Optimizer._hard_prox` over the heap: `sign_v = np.sign(v)` (no
write to `v`); `w = self.obs.copy()` (fresh allocation);
`w *= sign_v` writes through `w`; return `w`. -/
def hardProxH (st : Store) (obsRef vRef : ℕ) : ℕ × Store :=
  let v := st.read vRef
  let sign_v := v.map sign
  let obsv := st.read obsRef
  let aw := st.alloc obsv
  let wRef := aw.1
  let st2 := aw.2
  let w2 := List.zipWith (· * ·) (st2.read wRef) sign_v
  (wRef, st2.write wRef w2)

/-- Error raised by the abstract `phase_retrieval` method. -/
inductive PhreError where
  | notImplementedError : String → PhreError
deriving DecidableEq, Repr

/-- `Optimizer.phase_retrieval`: the body is a single `raise` of
`NotImplementedError` (the message is the source's two adjacent string
literals concatenated, so no space appears between `by` and
`subclasses`). -/
def phase_retrieval (t : Optimizer) {α : Type} (fit_options : α) :
    Except PhreError (List ℚ) :=
  Except.error (PhreError.notImplementedError
    ("phase_retrieval need to be implemented by" ++ "subclasses."))

/-- The 2×2 identity observation operator used in the spec's worked
scenarios. -/
def id2 : List (List ℚ) := [[1, 0], [0, 1]]

/-- Two optimizer states that agree on every stored field except
possibly the `obj_type` selector. -/
def agreeExceptType (s1 s2 : Optimizer) : Prop :=
  s1.obs_mat = s2.obs_mat ∧ s1.obs = s2.obs ∧ s1.num_obs = s2.num_obs ∧
  s1.image_size = s2.image_size ∧ s1.obj_his = s2.obj_his ∧
  s1.err_his = s2.err_his

instance (s1 s2 : Optimizer) : Decidable (agreeExceptType s1 s2) := by
  unfold agreeExceptType
  infer_instance

/-! ### Helper lemmas -/

lemma sign_mul_self (v : ℚ) : v * sign v = |v| := by
  unfold sign
  rcases lt_trichotomy 0 v with h | h | h
  · rw [if_pos h, abs_of_pos h, mul_one]
  · simp [← h]
  · rw [if_neg (by linarith), if_pos h, abs_of_neg h]; ring

lemma abs_mul_sign_self (v : ℚ) : |v| * sign v = v := by
  unfold sign
  rcases lt_trichotomy 0 v with h | h | h
  · rw [if_pos h, abs_of_pos h, mul_one]
  · simp [← h]
  · rw [if_neg (by linarith), if_pos h, abs_of_neg h]; ring

lemma softProxElem_eq (alpha o v : ℚ) :
    softProxElem alpha o v = softProxStep alpha o |v| * sign v := by
  show softProxStep alpha o (v * sign v) * sign v = _
  rw [sign_mul_self]

lemma getD_zipWith (f : ℚ → ℚ → ℚ) :
    ∀ (a b : List ℚ) (i : ℕ), i < a.length → i < b.length →
      (List.zipWith f a b).getD i 0 = f (a.getD i 0) (b.getD i 0) := by
  intro a
  induction a with
  | nil => intro b i h; simp at h
  | cons x xs ih =>
    intro b i h₁ h₂
    cases b with
    | nil => simp at h₂
    | cons y ys =>
      cases i with
      | zero => simp
      | succ n =>
        simp only [List.zipWith_cons_cons, List.getD_cons_succ]
        exact ih ys n (by simpa using h₁) (by simpa using h₂)

lemma length_zipWith_eq (f : ℚ → ℚ → ℚ) (a b : List ℚ)
    (h : a.length = b.length) : (List.zipWith f a b).length = a.length := by
  simp [List.length_zipWith, h]

lemma zipWith_mul_map_sign (v : List ℚ) :
    List.zipWith (· * ·) v (v.map sign) = v.map abs := by
  induction v with
  | nil => rfl
  | cons x xs ih => simp [ih, sign_mul_self]

lemma sum_zipWith_eq (f : ℚ → ℚ → ℚ) :
    ∀ (a b : List ℚ), a.length = b.length →
      (List.zipWith f a b).sum =
        ∑ i in Finset.range a.length, f (a.getD i 0) (b.getD i 0) := by
  intro a
  induction a with
  | nil => intro b h; simp
  | cons x xs ih =>
    intro b h
    cases b with
    | nil => simp at h
    | cons y ys =>
      have hlen : xs.length = ys.length := by simpa using h
      simp only [List.zipWith_cons_cons, List.sum_cons, List.length_cons]
      rw [Finset.sum_range_succ' (fun i => f ((x :: xs).getD i 0) ((y :: ys).getD i 0))]
      simp only [List.getD_cons_succ, List.getD_cons_zero]
      rw [ih ys hlen]
      ring

lemma read_write_same (st : Store) (r : ℕ) (h : r < st.length) (v : List ℚ) :
    (st.write r v).read r = v := by
  unfold Store.write Store.read
  rw [List.getD_eq_getElem?_getD, List.getElem?_set_self (by simpa using h)]
  rfl

lemma read_write_ne (st : Store) (r s : ℕ) (h : r ≠ s) (v : List ℚ) :
    (st.write r v).read s = st.read s := by
  unfold Store.write Store.read
  rw [List.getD_eq_getElem?_getD, List.getElem?_set_ne h,
    ← List.getD_eq_getElem?_getD]

lemma read_append_lt (st : Store) (v : List ℚ) (r : ℕ) (h : r < st.length) :
    Store.read (st ++ [v]) r = st.read r := by
  unfold Store.read
  rw [List.getD_eq_getElem?_getD, List.getElem?_append_left h,
    ← List.getD_eq_getElem?_getD]

lemma read_append_len (st : Store) (v : List ℚ) :
    Store.read (st ++ [v]) st.length = v := by
  unfold Store.read
  rw [List.getD_eq_getElem?_getD]
  simp

lemma length_write (st : Store) (r : ℕ) (v : List ℚ) :
    (st.write r v).length = st.length := by
  unfold Store.write; simp

lemma sign_zero_eq : sign 0 = 0 := by simp [sign]

lemma abs_sign_of_ne_zero (v : ℚ) (h : v ≠ 0) : |sign v| = 1 := by
  unfold sign
  rcases lt_trichotomy 0 v with h' | h' | h'
  · simp [h']
  · exact absurd h'.symm h
  · rw [if_neg (by linarith), if_pos h']
    simp

lemma recordMany_obj_length (args : List (Option ℚ × Option ℚ)) :
    ∀ t : Optimizer,
      (recordMany t args).obj_his.length = t.obj_his.length + args.length := by
  induction args with
  | nil => intro t; simp [recordMany]
  | cons p ps ih =>
    intro t
    show (recordMany (record_solver_info t p.1 p.2) ps).obj_his.length = _
    rw [ih]
    simp [record_solver_info]
    omega

lemma recordMany_err_length (args : List (Option ℚ × Option ℚ)) :
    ∀ t : Optimizer,
      (recordMany t args).err_his.length = t.err_his.length + args.length := by
  induction args with
  | nil => intro t; simp [recordMany]
  | cons p ps ih =>
    intro t
    show (recordMany (record_solver_info t p.1 p.2) ps).err_his.length = _
    rw [ih]
    simp [record_solver_info]
    omega

lemma softProxStep_cases (alpha o a : ℚ) (h : 0 < alpha) :
    softProxStep alpha o a =
      if a > o + alpha then a - alpha
      else if a < o - alpha then a + alpha
      else o := by
  unfold softProxStep
  by_cases h1 : a > o + alpha
  · have h2 : ¬ a < o - alpha := by linarith
    simp [h1, h2]
  · simp [h1]

lemma softProxElem_zero (o v : ℚ) : softProxElem 0 o v = v := by
  rw [softProxElem_eq]
  unfold softProxStep
  rcases lt_trichotomy |v| o with h | h | h
  · rw [if_pos (by linarith), add_zero, abs_mul_sign_self]
  · rw [if_neg (by linarith), if_neg (by linarith), ← h, abs_mul_sign_self]
  · rw [if_neg (by linarith), if_pos (by linarith), sub_zero, abs_mul_sign_self]

lemma zipWith_softProxElem_zero :
    ∀ (a b : List ℚ), a.length = b.length →
      List.zipWith (softProxElem 0) a b = b := by
  intro a
  induction a with
  | nil =>
    intro b h
    cases b with
    | nil => rfl
    | cons y ys => simp at h
  | cons x xs ih =>
    intro b h
    cases b with
    | nil => simp at h
    | cons y ys =>
      simp only [List.zipWith_cons_cons, softProxElem_zero]
      rw [ih ys (by simpa using h)]

lemma getD_mem (l : List ℚ) (i : ℕ) (h : i < l.length) : l.getD i 0 ∈ l := by
  rw [List.getD_eq_getElem l 0 h]
  exact List.getElem_mem h

lemma getD_map_dot (l : List (List ℚ)) (x : List ℚ) (i : ℕ)
    (h : i < l.length) :
    (l.map (fun row => dot row x)).getD i 0 = dot (l.getD i []) x := by
  rw [List.getD_eq_getElem _ 0 (by simpa using h), List.getElem_map,
    List.getD_eq_getElem _ [] h]

lemma read_chain_other (st : Store) (vRef obsRef : ℕ) (v2 obsv w1 w2 : List ℚ)
    (hobs : obsRef < st.length) (hvo : vRef ≠ obsRef) :
    (((st.write vRef v2 ++ [obsv]).write (st.write vRef v2).length w1).write
      (st.write vRef v2).length w2).read obsRef = st.read obsRef := by
  have hlen : (st.write vRef v2).length = st.length := length_write st vRef v2
  have hne1 : (st.write vRef v2).length ≠ obsRef := by rw [hlen]; omega
  rw [read_write_ne _ _ _ hne1, read_write_ne _ _ _ hne1,
    read_append_lt _ _ _ (by rw [hlen]; omega), read_write_ne _ _ _ hvo]

lemma read_chain_arg (st : Store) (vRef : ℕ) (v2 obsv w1 w2 : List ℚ)
    (hv : vRef < st.length) :
    (((st.write vRef v2 ++ [obsv]).write (st.write vRef v2).length w1).write
      (st.write vRef v2).length w2).read vRef = v2 := by
  have hlen : (st.write vRef v2).length = st.length := length_write st vRef v2
  have hne1 : (st.write vRef v2).length ≠ vRef := by rw [hlen]; omega
  rw [read_write_ne _ _ _ hne1, read_write_ne _ _ _ hne1,
    read_append_lt _ _ _ (by rw [hlen]; omega), read_write_same _ _ hv]

lemma read_append_write_other (st : Store) (r : ℕ) (obsv w2 : List ℚ)
    (h : r < st.length) :
    ((st ++ [obsv]).write st.length w2).read r = st.read r := by
  rw [read_write_ne _ _ _ (by omega), read_append_lt _ _ _ h]

/-! ### Claim theorems -/

/-- Claim C5 (code_bug evidence): the constructor performs no shape
validation.  With a 2×2 operator (`num_obs = 2`) and an observation
vector of length 1, `__init__` completes normally and stores the
mismatched vector verbatim, instead of raising a ShapeError. -/
theorem init_accepts_mismatched_obs :
    (mkOptimizer id2 [3] "soft").num_obs = 2 ∧
    (mkOptimizer id2 [3] "soft").obs = [3] ∧
    (mkOptimizer id2 [3] "soft").obs.length ≠
      (mkOptimizer id2 [3] "soft").num_obs := by
  refine ⟨rfl, rfl, ?_⟩
  decide

/-- Claim C6: every `record_solver_info` call appends exactly one entry
to the objective history and exactly one to the error history; an
omitted argument is recorded as the not-a-number sentinel, and a
provided argument is appended exactly as given. -/
theorem record_solver_info_appends_one (t : Optimizer) (obj err : Option ℚ) :
    (record_solver_info t obj err).obj_his = t.obj_his ++ [toEntry obj] ∧
    (record_solver_info t obj err).err_his = t.err_his ++ [toEntry err] ∧
    (record_solver_info t obj err).obj_his.length = t.obj_his.length + 1 ∧
    (record_solver_info t obj err).err_his.length = t.err_his.length + 1 ∧
    toEntry none = HEntry.nan ∧
    (∀ q : ℚ, toEntry (some q) = HEntry.val q) := by
  refine ⟨rfl, rfl, by simp [record_solver_info], by simp [record_solver_info],
    rfl, fun q => rfl⟩

/-- Claim C7: `reset_solver_info` empties both histories; a reset
followed by any sequence of `record_solver_info` calls leaves both
histories with length equal to the number of calls; and the
equal-length (index-alignment) invariant holds after construction and
is preserved by every operation (each record call grows both
histories by exactly one, reset sets both to length zero). -/
theorem reset_then_record_alignment :
    (∀ t : Optimizer,
      (reset_solver_info t).obj_his = [] ∧ (reset_solver_info t).err_his = []) ∧
    (∀ (t : Optimizer) (args : List (Option ℚ × Option ℚ)),
      (recordMany (reset_solver_info t) args).obj_his.length = args.length ∧
      (recordMany (reset_solver_info t) args).err_his.length = args.length) ∧
    (∀ (m : List (List ℚ)) (o : List ℚ) (ty : String),
      (mkOptimizer m o ty).obj_his.length = (mkOptimizer m o ty).err_his.length) ∧
    (∀ (t : Optimizer) (obj err : Option ℚ),
      (record_solver_info t obj err).obj_his.length = t.obj_his.length + 1 ∧
      (record_solver_info t obj err).err_his.length = t.err_his.length + 1) ∧
    (∀ t : Optimizer,
      (reset_solver_info t).obj_his.length = (reset_solver_info t).err_his.length) := by
  refine ⟨fun t => ⟨rfl, rfl⟩, fun t args => ⟨?_, ?_⟩, fun m o ty => rfl,
    fun t obj err => ⟨by simp [record_solver_info], by simp [record_solver_info]⟩,
    fun t => rfl⟩
  · rw [recordMany_obj_length]
    simp [reset_solver_info]
  · rw [recordMany_err_length]
    simp [reset_solver_info]

/-- Claim C1: for a reference vector of the observation length and any
`alpha > 0`, the soft prox returns the per-coordinate closed form of
the spec (with `v2 = |v|` and final multiplication by `sign v`), and
at the exact boundary `|v| = Observations + alpha` the output takes
the flat branch (`Observations` times the sign), not the greater
branch. -/
theorem softProx_closed_form (t : Optimizer) (v : List ℚ) (alpha : ℚ)
    (i : ℕ) (halpha : 0 < alpha) (hlen : v.length = t.obs.length)
    (hi : i < v.length) :
    ((softProx t v alpha).getD i 0 =
      (if |v.getD i 0| > t.obs.getD i 0 + alpha then
        (|v.getD i 0| - alpha) * sign (v.getD i 0)
      else if |v.getD i 0| < t.obs.getD i 0 - alpha then
        (|v.getD i 0| + alpha) * sign (v.getD i 0)
      else t.obs.getD i 0 * sign (v.getD i 0))) ∧
    (|v.getD i 0| = t.obs.getD i 0 + alpha →
      (softProx t v alpha).getD i 0 =
        t.obs.getD i 0 * sign (v.getD i 0)) := by
  have hmain : (softProx t v alpha).getD i 0 =
      softProxStep alpha (t.obs.getD i 0) |v.getD i 0| * sign (v.getD i 0) := by
    unfold softProx
    rw [getD_zipWith _ _ _ _ (by omega) hi, softProxElem_eq]
  rw [hmain, softProxStep_cases _ _ _ halpha]
  constructor
  · by_cases h1 : |v.getD i 0| > t.obs.getD i 0 + alpha
    · simp [h1]
    · by_cases h2 : |v.getD i 0| < t.obs.getD i 0 - alpha
      · simp [h1, h2]
      · simp [h1, h2]
  · intro hb
    have h1 : ¬ |v.getD i 0| > t.obs.getD i 0 + alpha := by rw [hb]; linarith
    have h2 : ¬ |v.getD i 0| < t.obs.getD i 0 - alpha := by rw [hb]; linarith
    rw [if_neg h1, if_neg h2]

/-- Claim C1 witness: concrete run of the closed form at
observations `[3, 4]`, reference `[5, 5]`, `alpha = 1`, index `0`
(the spec's scenario: `5 > 3 + 1`, so the output is `5 - 1 = 4`). -/
theorem softProx_closed_form_witness :
    (0 : ℚ) < 1 ∧
    ([(5 : ℚ), 5].length = (mkOptimizer id2 [3, 4] "soft").obs.length) ∧
    ((softProx (mkOptimizer id2 [3, 4] "soft") [5, 5] 1).getD 0 0 =
      (if |([(5 : ℚ), 5]).getD 0 0| >
          (mkOptimizer id2 [3, 4] "soft").obs.getD 0 0 + 1 then
        (|([(5 : ℚ), 5]).getD 0 0| - 1) * sign (([(5 : ℚ), 5]).getD 0 0)
      else if |([(5 : ℚ), 5]).getD 0 0| <
          (mkOptimizer id2 [3, 4] "soft").obs.getD 0 0 - 1 then
        (|([(5 : ℚ), 5]).getD 0 0| + 1) * sign (([(5 : ℚ), 5]).getD 0 0)
      else (mkOptimizer id2 [3, 4] "soft").obs.getD 0 0 *
        sign (([(5 : ℚ), 5]).getD 0 0))) ∧
    (softProx (mkOptimizer id2 [3, 4] "soft") [5, 5] 1).getD 0 0 = 4 := by
  refine ⟨by norm_num, by decide,
    (softProx_closed_form (mkOptimizer id2 [3, 4] "soft") [5, 5] 1 0
      (by norm_num) (by decide) (by decide)).1, ?_⟩
  norm_num [softProx, softProxElem, softProxStep, sign, mkOptimizer, id2]

/-- Claim C2: the hard prox returns `sign(v) * Observations`
element-wise; with non-negative observations this gives
`|hard_prox(v)| = Observations` at coordinates where `v` is nonzero,
and output `0` where `v = 0`. -/
theorem hardProx_sign_times_obs (t : Optimizer) (v : List ℚ) (i : ℕ)
    (hnn : ∀ o ∈ t.obs, 0 ≤ o) (hlen : v.length = t.obs.length)
    (hi : i < v.length) :
    (hardProx t v).getD i 0 = sign (v.getD i 0) * t.obs.getD i 0 ∧
    (v.getD i 0 ≠ 0 → |(hardProx t v).getD i 0| = t.obs.getD i 0) ∧
    (v.getD i 0 = 0 → (hardProx t v).getD i 0 = 0) := by
  have hmain : (hardProx t v).getD i 0 =
      t.obs.getD i 0 * sign (v.getD i 0) := by
    unfold hardProx
    rw [getD_zipWith _ _ _ _ (by omega) hi]
  have honn : 0 ≤ t.obs.getD i 0 := hnn _ (getD_mem t.obs i (by omega))
  refine ⟨by rw [hmain, mul_comm], fun hne => ?_, fun hz => ?_⟩
  · rw [hmain, abs_mul, abs_sign_of_ne_zero _ hne, mul_one,
      abs_of_nonneg honn]
  · rw [hmain, hz, sign_zero_eq, mul_zero]

/-- Claim C2 witness: the spec scenario `hard_prox([-5, 5]) = [-3, 4]`
with observations `[3, 4]`, checked at index `0`. -/
theorem hardProx_sign_times_obs_witness :
    (∀ o ∈ (mkOptimizer id2 [3, 4] "soft").obs, (0 : ℚ) ≤ o) ∧
    ((hardProx (mkOptimizer id2 [3, 4] "soft") [-5, 5]).getD 0 0 =
      sign (([(-5 : ℚ), 5]).getD 0 0) *
        (mkOptimizer id2 [3, 4] "soft").obs.getD 0 0) ∧
    hardProx (mkOptimizer id2 [3, 4] "soft") [-5, 5] = [-3, 4] := by
  refine ⟨by decide,
    (hardProx_sign_times_obs (mkOptimizer id2 [3, 4] "soft") [-5, 5] 0
      (by decide) (by decide) (by decide)).1, ?_⟩
  norm_num [hardProx, mkOptimizer, id2, sign]

/-- Claim C3: the objective is the total absolute mismatch between
predicted and observed magnitudes, and the spec's identity-operator
scenario evaluates as stated. -/
theorem objective_abs_mismatch (t : Optimizer) (x : List ℚ)
    (hlen : t.obs_mat.length = t.obs.length) :
    (objective t x = ∑ i in Finset.range t.obs_mat.length,
        |(|dot (t.obs_mat.getD i []) x|) - t.obs.getD i 0|) ∧
    objective (mkOptimizer id2 [3, 4] "soft") [3, 4] = 0 ∧
    objective (mkOptimizer id2 [3, 4] "soft") [0, 0] = 7 := by
  refine ⟨?_, ?_, ?_⟩
  · unfold objective
    rw [sum_zipWith_eq _ _ _ (by simpa using hlen)]
    simp only [List.length_map]
    refine Finset.sum_congr rfl ?_
    intro i hi
    rw [getD_map_dot _ _ _ (Finset.mem_range.mp hi)]
  · norm_num [objective, dot, mkOptimizer, id2]
  · norm_num [objective, dot, mkOptimizer, id2]

/-- Claim C3 witness: the scenario instance, obtained from the theorem
at the 2×2 identity operator with observations `[3, 4]`. -/
theorem objective_abs_mismatch_witness :
    ((mkOptimizer id2 [3, 4] "soft").obs_mat.length =
      (mkOptimizer id2 [3, 4] "soft").obs.length) ∧
    objective (mkOptimizer id2 [3, 4] "soft") [3, 4] = 0 :=
  ⟨by decide,
    (objective_abs_mismatch (mkOptimizer id2 [3, 4] "soft") [3, 4]
      (by decide)).2.1⟩

/-- Claim C4 counterexample: with observations `[3]` and reference
`[5]`, the soft prox at `alpha = 0` returns `[5]` (both masks use a
zero-width band, so the coordinate `5 > 3` is assigned `5 - 0 = 5`),
while the hard prox returns `[3]`; the two operators do not coincide
at `alpha = 0`. -/
theorem softProx_zero_ne_hardProx :
    softProx (mkOptimizer [[1]] [3] "soft") [5] 0 ≠
      hardProx (mkOptimizer [[1]] [3] "soft") [5] := by
  norm_num [softProx, hardProx, softProxElem, softProxStep, sign, mkOptimizer]

/-- Claim C4 amended: at `alpha = 0` the soft prox is the identity on
the reference vector (it returns `v` exactly); it agrees with the
hard prox only at coordinates where `sign(v) * Observations = v`, not
in general. -/
theorem softProx_zero_identity (t : Optimizer) (v : List ℚ)
    (hlen : v.length = t.obs.length) : softProx t v 0 = v := by
  unfold softProx
  exact zipWith_softProxElem_zero t.obs v hlen.symm

/-- Claim C4 witness: the amended statement at observations `[3]` and
reference `[5]`. -/
theorem softProx_zero_identity_witness :
    ([(5 : ℚ)].length = (mkOptimizer [[1]] [3] "soft").obs.length) ∧
    softProx (mkOptimizer [[1]] [3] "soft") [5] 0 = [5] :=
  ⟨by decide,
    softProx_zero_identity (mkOptimizer [[1]] [3] "soft") [5] (by decide)⟩

/-- Claim C9: calling `phase_retrieval` on the base class always raises
`NotImplementedError`, for any state and any fit options, and has no
other effect (the method body is the single raise statement, so the
result is exactly the error value). -/
theorem phase_retrieval_not_implemented (t : Optimizer) (α : Type)
    (fit_options : α) :
    phase_retrieval t fit_options =
      Except.error (PhreError.notImplementedError
        "phase_retrieval need to be implemented bysubclasses.") := rfl

/-- Claim C10: the constructor stores any objective-type string
verbatim without validation, and no base-class operation reads it:
two states that agree on every field except `obj_type` produce
identical results from `objective`, soft prox and hard prox, and the
history operations change both states identically (preserving the
agree-except-type relation and leaving each `obj_type` untouched). -/
theorem obj_type_noninterference (s1 s2 : Optimizer)
    (h : agreeExceptType s1 s2) :
    (∀ x, objective s1 x = objective s2 x) ∧
    (∀ v alpha, softProx s1 v alpha = softProx s2 v alpha) ∧
    (∀ v, hardProx s1 v = hardProx s2 v) ∧
    (∀ obj err,
      agreeExceptType (record_solver_info s1 obj err)
        (record_solver_info s2 obj err) ∧
      (record_solver_info s1 obj err).obj_type = s1.obj_type ∧
      (record_solver_info s2 obj err).obj_type = s2.obj_type) ∧
    (agreeExceptType (reset_solver_info s1) (reset_solver_info s2) ∧
      (reset_solver_info s1).obj_type = s1.obj_type) ∧
    (∀ (m : List (List ℚ)) (o : List ℚ) (ty : String),
      (mkOptimizer m o ty).obj_type = ty) := by
  obtain ⟨hmat, hobs, hn, hs, hoh, heh⟩ := h
  refine ⟨fun x => ?_, fun v alpha => ?_, fun v => ?_,
    fun obj err => ⟨⟨?_, ?_, ?_, ?_, ?_, ?_⟩, rfl, rfl⟩,
    ⟨⟨hmat, hobs, hn, hs, rfl, rfl⟩, rfl⟩, fun m o ty => rfl⟩
  · unfold objective
    rw [hmat, hobs]
  · unfold softProx
    rw [hobs]
  · unfold hardProx
    rw [hobs]
  · exact hmat
  · exact hobs
  · exact hn
  · exact hs
  · simp [record_solver_info, hoh]
  · simp [record_solver_info, heh]

/-- Claim C10 witness: two concrete states differing only in
`obj_type` (one built with the selector string set to soft, one to
hard) agree except for the type and give equal objective values. -/
theorem obj_type_noninterference_witness :
    agreeExceptType (mkOptimizer id2 [3, 4] "soft")
      (mkOptimizer id2 [3, 4] "hard") ∧
    objective (mkOptimizer id2 [3, 4] "soft") [1, 2] =
      objective (mkOptimizer id2 [3, 4] "hard") [1, 2] :=
  ⟨by decide,
    (obj_type_noninterference (mkOptimizer id2 [3, 4] "soft")
      (mkOptimizer id2 [3, 4] "hard") (by decide)).1 [1, 2]⟩

/-- Claim C8: neither prox mutates the optimizer's stored buffers.
In the heap model, with distinct valid references for the stored
observations and the caller's argument: after the soft prox the
observation buffer is unchanged and the argument buffer holds its
element-wise absolute value; after the hard prox both buffers are
unchanged; the result reference is freshly allocated (the `.copy()`),
aliasing neither input; and `objective` returns the state unchanged
(its body assigns no field). -/
theorem prox_frame (st : Store) (obsRef vRef : ℕ) (alpha : ℚ)
    (hobs : obsRef < st.length) (hv : vRef < st.length)
    (hne : obsRef ≠ vRef) :
    ((softProxH st obsRef vRef alpha).2.read obsRef = st.read obsRef ∧
     (softProxH st obsRef vRef alpha).2.read vRef =
       (st.read vRef).map abs ∧
     (softProxH st obsRef vRef alpha).1 ≠ obsRef ∧
     (softProxH st obsRef vRef alpha).1 ≠ vRef) ∧
    ((hardProxH st obsRef vRef).2.read obsRef = st.read obsRef ∧
     (hardProxH st obsRef vRef).2.read vRef = st.read vRef ∧
     (hardProxH st obsRef vRef).1 ≠ obsRef ∧
     (hardProxH st obsRef vRef).1 ≠ vRef) ∧
    (∀ (t : Optimizer) (x : List ℚ), (objectiveM t x).2 = t) := by
  unfold softProxH hardProxH Store.alloc
  dsimp only
  refine ⟨⟨?_, ?_, ?_, ?_⟩, ⟨?_, ?_, ?_, ?_⟩, fun t x => rfl⟩
  · exact read_chain_other st vRef obsRef _ _ _ _ hobs (Ne.symm hne)
  · rw [read_chain_arg st vRef _ _ _ _ hv, zipWith_mul_map_sign]
  · rw [length_write]; omega
  · rw [length_write]; omega
  · exact read_append_write_other st obsRef _ _ hobs
  · exact read_append_write_other st vRef _ _ hv
  · omega
  · omega

/-- Claim C8 witness: a concrete heap holding observations `[3, 4]`
at reference 0 and the argument `[-5, 5]` at reference 1. -/
theorem prox_frame_witness :
    ((0 : ℕ) < ([[(3 : ℚ), 4], [-5, 5]] : Store).length) ∧
    ((1 : ℕ) < ([[(3 : ℚ), 4], [-5, 5]] : Store).length) ∧
    (softProxH [[(3 : ℚ), 4], [-5, 5]] 0 1 1).2.read 0 =
      Store.read [[(3 : ℚ), 4], [-5, 5]] 0 :=
  ⟨by decide, by decide,
    ((prox_frame [[(3 : ℚ), 4], [-5, 5]] 0 1 1 (by decide) (by decide)
      (by decide)).1).1⟩

end Phre
